import Mathlib

/-!
Verification of fakestore_analysis.py.

This file is a shallow embedding of the script: the SQLite schema
(categories, products, ratings), the load loop of insert_data with its
single commit boundary, the four aggregate queries of analytics, the chart
label logic of plot_graphs, and the control flow of main.  Numeric REAL
columns are modelled by rationals, table contents by lists of rows in
insertion order, and an uncaught sqlite3 constraint violation by the value
none.  Theorems about these definitions follow the definitions.
-/

set_option maxRecDepth 40000

namespace Fakestore

/-- A product object as fetched from the API: fields id, title, price,
category and the nested rating object with fields rate and count. -/
structure Record where
  id : Int
  title : String
  price : ℚ
  category : String
  rate : ℚ
  count : Nat
deriving DecidableEq

/-- A row of the categories table: id INTEGER PRIMARY KEY AUTOINCREMENT,
name TEXT UNIQUE. -/
structure CategoryRow where
  id : Int
  name : String
deriving DecidableEq

/-- A row of the products table: id INTEGER PRIMARY KEY, title TEXT,
price REAL, category_id INTEGER REFERENCES categories(id). -/
structure ProductRow where
  id : Int
  title : String
  price : ℚ
  category_id : Int
deriving DecidableEq

/-- A row of the ratings table: product_id INTEGER PRIMARY KEY, rate REAL,
count INTEGER, product_id REFERENCES products(id). -/
structure RatingRow where
  product_id : Int
  rate : ℚ
  count : Nat
deriving DecidableEq

/-- The state of the store: the three tables, each as its list of rows in
insertion order. -/
structure DB where
  categories : List CategoryRow
  products : List ProductRow
  ratings : List RatingRow
deriving DecidableEq

/-- The store with all three tables empty. -/
def emptyDB : DB := ⟨[], [], []⟩

/-- create_database: DROP TABLE IF EXISTS for all three tables, then
CREATE TABLE for each, then commit.  Whatever the prior contents were, the
committed state afterwards is the empty schema. -/
def create_database (_ : DB) : DB := emptyDB

/-- The id AUTOINCREMENT assigns to the next inserted category row: one
more than the largest id ever used (no deletes happen, so this is one more
than the largest present id, starting from 1 on an empty table). -/
def nextCatId (cats : List CategoryRow) : Int :=
  (cats.map CategoryRow.id).foldr max 0 + 1

/-- INSERT OR IGNORE INTO categories (name) VALUES (?): a duplicate name is
a no-op, otherwise a fresh row is appended with the AUTOINCREMENT id. -/
def insertCategory (cats : List CategoryRow) (n : String) : List CategoryRow :=
  if cats.any (fun c => c.name == n) then cats
  else cats ++ [⟨nextCatId cats, n⟩]

/-- SELECT id FROM categories WHERE name = ? followed by fetchone. -/
def lookupCategoryId (cats : List CategoryRow) (n : String) : Option Int :=
  (cats.find? (fun c => c.name == n)).map CategoryRow.id

/-- One iteration of the insert_data loop for one record: insert-or-ignore
the category, look up its id, INSERT the product row (primary-key clash on
a duplicate product id raises, modelled by none), then INSERT the rating
row (same primary-key rule on product_id). -/
def insertRecord (db : DB) (p : Record) : Option DB :=
  let cats := insertCategory db.categories p.category
  match lookupCategoryId cats p.category with
  | none => none
  | some cat_id =>
    if db.products.any (fun q => q.id == p.id) then none
    else if db.ratings.any (fun r => r.product_id == p.id) then none
    else some ⟨cats,
      db.products ++ [⟨p.id, p.title, p.price, cat_id⟩],
      db.ratings ++ [⟨p.id, p.rate, p.count⟩]⟩

/-- The full loop of insert_data over the fetched records, before the
commit; none means an uncaught constraint violation somewhere mid-loop. -/
def insertLoop (db : DB) (ps : List Record) : Option DB :=
  ps.foldlM insertRecord db

/-- insert_data with its commit boundary: conn.commit() runs once, after
the whole loop.  On success the loop result becomes the committed state;
on a mid-loop constraint violation the exception escapes before the
commit, so the committed state is unchanged.  The boolean records whether
the call returned normally. -/
def insert_data (committed : DB) (ps : List Record) : DB × Bool :=
  match insertLoop committed ps with
  | some db => (db, true)
  | none => (committed, false)

/-- ROUND(x, 2) on the average price. -/
def round2 (q : ℚ) : ℚ := ((round (q * 100) : ℤ) : ℚ) / 100

/-- Relation used to realise GROUP BY cat.id: category rows ordered by id. -/
def catIdLe (a b : CategoryRow) : Prop := a.id ≤ b.id

instance : DecidableRel catIdLe := fun a b => Int.decLe a.id b.id

instance : IsTotal CategoryRow catIdLe := ⟨fun a b => Int.le_total a.id b.id⟩

instance : IsTrans CategoryRow catIdLe := ⟨fun _ _ _ h h' => le_trans h h'⟩

/-- The categories table enumerated in ascending id order, the order in
which GROUP BY cat.id emits its groups. -/
def sortedCategories (db : DB) : List CategoryRow :=
  List.insertionSort catIdLe db.categories

/-- One output row of query 1, with the grouping key kept alongside the
three selected columns. -/
structure Q1Row where
  catId : Int
  name : String
  count : Nat
  avgPrice : ℚ
deriving DecidableEq

/-- The group row query 1 produces for one category: COUNT(p.id) and
ROUND(AVG(p.price), 2) over the products joined to it; none when the inner
join leaves the group empty. -/
def q1row (db : DB) (c : CategoryRow) : Option Q1Row :=
  let qs := db.products.filter (fun p => p.category_id == c.id)
  if qs.isEmpty then none
  else some ⟨c.id, c.name, qs.length,
    round2 ((qs.map ProductRow.price).sum / (qs.length : ℚ))⟩

/-- Query 1: SELECT cat.name, COUNT(p.id), ROUND(AVG(p.price), 2) FROM
products p JOIN categories cat ON p.category_id = cat.id GROUP BY cat.id.
The inner join drops categories without products; groups come out in
category-id order.  The grouping key is kept in the row. -/
def query1Full (db : DB) : List Q1Row :=
  (sortedCategories db).filterMap (q1row db)

/-- The three columns query 1 actually selects. -/
def query1 (db : DB) : List (String × Nat × ℚ) :=
  (query1Full db).map (fun x => (x.name, x.count, x.avgPrice))

/-- The rows of ratings r JOIN products p ON r.product_id = p.id restricted
to products of one category: one copy of the rating row per matching
product row. -/
def categorySales (db : DB) (cid : Int) : List RatingRow :=
  db.ratings.flatMap (fun r =>
    (db.products.filter (fun p => r.product_id == p.id && p.category_id == cid)).map
      (fun _ => r))

/-- The group row query 2 produces for one category: its name and
SUM(r.count) over its joined rating rows; none when the join leaves the
group empty. -/
def q2group (db : DB) (c : CategoryRow) : Option (String × Nat) :=
  let rows := categorySales db c.id
  if rows.isEmpty then none
  else some (c.name, (rows.map RatingRow.count).sum)

/-- The per-category groups of query 2: SELECT cat.name, SUM(r.count) FROM
ratings r JOIN products p JOIN categories cat GROUP BY cat.id, in
category-id order; categories with no joined rows are absent. -/
def query2Groups (db : DB) : List (String × Nat) :=
  (sortedCategories db).filterMap (q2group db)

/-- Relation used to realise ORDER BY ... DESC on a summed count. -/
def countGe (a b : String × Nat) : Prop := b.2 ≤ a.2

instance : DecidableRel countGe := fun a b => Nat.decLe b.2 a.2

instance : IsTotal (String × Nat) countGe := ⟨fun a b => Nat.le_total b.2 a.2⟩

instance : IsTrans (String × Nat) countGe := ⟨fun _ _ _ h h' => le_trans h' h⟩

/-- Query 2: the groups ordered by SUM(r.count) DESC, LIMIT 1, fetchone. -/
def query2 (db : DB) : Option (String × Nat) :=
  (List.insertionSort countGe (query2Groups db)).head?

/-- SELECT p.title, r.count FROM ratings r JOIN products p ON
r.product_id = p.id. -/
def salesRows (db : DB) : List (String × Nat) :=
  db.ratings.flatMap (fun r =>
    (db.products.filter (fun p => r.product_id == p.id)).map
      (fun p => (p.title, r.count)))

/-- Query 3: the joined rows ORDER BY r.count DESC LIMIT 5. -/
def query3 (db : DB) : List (String × Nat) :=
  (List.insertionSort countGe (salesRows db)).take 5

/-- The correlated subquery of query 4: SELECT AVG(r2.rate) FROM ratings r2
JOIN products p2 ON r2.product_id = p2.id WHERE p2.category_id = cid.
AVG over no rows is NULL, modelled by none. -/
def avgCatRating (db : DB) (cid : Int) : Option ℚ :=
  if (categorySales db cid).isEmpty then none
  else some (((categorySales db cid).map RatingRow.rate).sum
    / ((categorySales db cid).length : ℚ))

/-- One row of query 4 before projection: the joined product row together
with the selected category name, rating and per-category average. -/
structure Q4Row where
  product : ProductRow
  catName : String
  rate : ℚ
  avg : ℚ
deriving DecidableEq

/-- The WHERE-filtered join of query 4, before ORDER BY: products JOIN
categories JOIN ratings, kept when r.rate strictly exceeds the correlated
per-category average (a NULL average compares as false). -/
def query4Unsorted (db : DB) : List Q4Row :=
  db.products.flatMap (fun p =>
    (db.categories.filter (fun cat => p.category_id == cat.id)).flatMap (fun cat =>
      (db.ratings.filter (fun r => p.id == r.product_id)).filterMap (fun r =>
        match avgCatRating db p.category_id with
        | none => none
        | some a => if a < r.rate then some ⟨p, cat.name, r.rate, a⟩ else none)))

/-- Relation used to realise ORDER BY r.rate DESC. -/
def rateGe (a b : Q4Row) : Prop := b.rate ≤ a.rate

instance : DecidableRel rateGe := fun a b => inferInstanceAs (Decidable (b.rate ≤ a.rate))

instance : IsTotal Q4Row rateGe := ⟨fun a b => le_total b.rate a.rate⟩

instance : IsTrans Q4Row rateGe := ⟨fun _ _ _ h h' => le_trans h' h⟩

/-- Query 4 rows in ORDER BY r.rate DESC order. -/
def query4Rows (db : DB) : List Q4Row :=
  List.insertionSort rateGe (query4Unsorted db)

/-- The four columns query 4 selects: title, category name, rating,
per-category average. -/
def query4 (db : DB) : List (String × String × ℚ × ℚ) :=
  (query4Rows db).map (fun x => (x.product.title, x.catName, x.rate, x.avg))

/-- The label plot_graphs renders for one product title in the top-5 chart:
row[0][:20] plus an ellipsis when len(row[0]) exceeds 20, else unchanged. -/
def truncTitle (t : String) : String :=
  if t.length > 20 then t.take 20 ++ "..." else t

/-- The labels of the top-5 horizontal bar chart, derived from the same
query as query 3. -/
def chartTitles (db : DB) : List String :=
  (query3 db).map (fun row => truncTitle row.1)

/-- The outcome of the fetch: either a parsed JSON array of records, or a
transport failure raised inside requests. -/
inductive FetchResult where
  | ok (records : List Record)
  | transportError (msg : String)

/-- fetch_data: on success returns the parsed records; a RequestException
is caught, a message is printed, and the empty list is returned. -/
def fetch_data : FetchResult → List Record
  | .ok rs => rs
  | .transportError _ => []

/-- What one run of main does: which messages and stages happened, and the
committed contents of the database file afterwards (none when the file was
never created). -/
structure RunTrace where
  printedNoData : Bool
  loadAttempted : Bool
  analyticsRan : Bool
  chartsRan : Bool
  dbFile : Option DB
deriving DecidableEq

/-- main: fetch; on empty data print the no-data message and return before
sqlite3.connect, leaving the database file exactly as it was; otherwise
create the schema, load, and run analytics and plotting only when the load
returned normally (an uncaught load error stops the run). -/
def mainRun (prior : Option DB) (res : FetchResult) : RunTrace :=
  let data := fetch_data res
  if data.isEmpty then
    ⟨true, false, false, false, prior⟩
  else
    let db0 := create_database (prior.getD emptyDB)
    let out := insert_data db0 data
    ⟨false, true, out.2, out.2, some out.1⟩

/-- A prior database file contents with one category, one product and one
rating, as left over from an earlier successful run. -/
def priorDB : DB := ⟨[⟨1, "A"⟩], [⟨1, "p", 10, 1⟩], [⟨1, 4, 5⟩]⟩

/-- The effect of insert-or-ignore on the name column of the categories
table: a duplicate name leaves the column unchanged, a new name is
appended. -/
def insertName (ns : List String) (n : String) : List String :=
  if n ∈ ns then ns else ns ++ [n]

/-- Well-formedness of a store state, as maintained by the schema and the
load loop: product ids are unique, the ratings table carries exactly one
row per product row in the same order, category names and ids are unique,
every product references an existing category, and every category row was
created on behalf of at least one product row. -/
structure WF (db : DB) : Prop where
  prodIds : (db.products.map ProductRow.id).Nodup
  ratProd : db.ratings.map RatingRow.product_id = db.products.map ProductRow.id
  catNames : (db.categories.map CategoryRow.name).Nodup
  catIds : (db.categories.map CategoryRow.id).Nodup
  prodCat : ∀ p ∈ db.products, p.category_id ∈ db.categories.map CategoryRow.id
  catInhab : ∀ c ∈ db.categories, ∃ p ∈ db.products, p.category_id = c.id

/-- Three records in one category with ratings 3.0, 4.0 and 5.0. -/
def ex1Records : List Record :=
  [⟨1, "p1", 10, "A", 3, 5⟩, ⟨2, "p2", 20, "A", 4, 6⟩, ⟨3, "p3", 30, "A", 5, 7⟩]

/-- The store state reached by loading ex1Records into the fresh schema. -/
def ex1DB : DB :=
  ⟨[⟨1, "A"⟩],
   [⟨1, "p1", 10, 1⟩, ⟨2, "p2", 20, 1⟩, ⟨3, "p3", 30, 1⟩],
   [⟨1, 3, 5⟩, ⟨2, 4, 6⟩, ⟨3, 5, 7⟩]⟩

/-- Two records in two categories with rating counts 100 and 250. -/
def ex2Records : List Record :=
  [⟨1, "p1", 10, "A", 4, 100⟩, ⟨2, "p2", 20, "B", 5, 250⟩]

/-- The store state reached by loading ex2Records into the fresh schema. -/
def ex2DB : DB :=
  ⟨[⟨1, "A"⟩, ⟨2, "B"⟩],
   [⟨1, "p1", 10, 1⟩, ⟨2, "p2", 20, 2⟩],
   [⟨1, 4, 100⟩, ⟨2, 5, 250⟩]⟩

/-- Three records across two categories; the product with id 1 is alone in
its category. -/
def ex3Records : List Record :=
  [⟨1, "p1", 10, "A", 4, 50⟩, ⟨2, "p2", 5, "B", 3, 10⟩, ⟨3, "p3", 6, "B", 5, 20⟩]

/-- The store state reached by loading ex3Records into the fresh schema. -/
def ex3DB : DB :=
  ⟨[⟨1, "A"⟩, ⟨2, "B"⟩],
   [⟨1, "p1", 10, 1⟩, ⟨2, "p2", 5, 2⟩, ⟨3, "p3", 6, 2⟩],
   [⟨1, 4, 50⟩, ⟨2, 3, 10⟩, ⟨3, 5, 20⟩]⟩

/-- Two records sharing the external product id 1. -/
def dupRecords : List Record :=
  [⟨1, "p1", 10, "A", 4, 5⟩, ⟨1, "p2", 20, "B", 3, 6⟩]

/-- C8: schema initialization is idempotent: a second create_database
yields the same state as one, and that state has all three tables empty,
whatever the prior contents of the store. -/
theorem create_database_idempotent :
    ∀ s : DB, create_database (create_database s) = create_database s ∧
      create_database s = emptyDB :=
  fun _ => ⟨rfl, rfl⟩

/-- C9: the top-5 chart renders, for each row of the top-5 query, exactly
the title truncated to its first 20 characters plus an ellipsis when the
title has more than 20 characters, and the unchanged title otherwise. -/
theorem chart_title_truncation :
    (∀ db : DB, chartTitles db = (query3 db).map (fun row => truncTitle row.1)) ∧
    (∀ t : String, 20 < t.length → truncTitle t = t.take 20 ++ "...") ∧
    (∀ t : String, t.length ≤ 20 → truncTitle t = t) := by
  refine ⟨fun _ => rfl, fun t ht => ?_, fun t ht => ?_⟩
  · simp only [truncTitle, if_pos (by omega : t.length > 20)]
  · simp only [truncTitle, if_neg (by omega : ¬ t.length > 20)]

/-- Witness for C9 at a concrete long and a concrete short title. -/
theorem chart_title_truncation_witness :
    20 < "abcdefghijklmnopqrstuvwxyz".length ∧
    truncTitle "abcdefghijklmnopqrstuvwxyz" = "abcdefghijklmnopqrst..." ∧
    truncTitle "abc" = "abc" :=
  ⟨by decide,
   (chart_title_truncation.2.1 "abcdefghijklmnopqrstuvwxyz" (by decide)).trans (by decide),
   chart_title_truncation.2.2 "abc" (by decide)⟩

/-- C6 counterexample: with an empty fetch (here a caught transport error)
and a database file left over from an earlier run, main prints the no-data
message and stops, but the run does not result in empty tables: the file
still holds the nonempty prior tables, untouched. -/
theorem main_empty_fetch_tables_not_emptied :
    fetch_data (.transportError "boom") = [] ∧
    (mainRun (some priorDB) (.transportError "boom")).printedNoData = true ∧
    (mainRun (some priorDB) (.transportError "boom")).dbFile = some priorDB ∧
    priorDB.products ≠ [] := by
  refine ⟨rfl, rfl, rfl, by decide⟩

/-- C6 (amended): a transport failure is caught and yields the empty record
list, and on any empty fetched record list main prints the no-data message
and performs none of the load, analytics or render steps, leaving the
database file untouched rather than producing empty tables. -/
theorem main_empty_fetch_no_op :
    (∀ msg, fetch_data (.transportError msg) = []) ∧
    ∀ (prior : Option DB) (res : FetchResult), fetch_data res = [] →
      mainRun prior res = ⟨true, false, false, false, prior⟩ := by
  refine ⟨fun _ => rfl, fun prior res h => ?_⟩
  simp [mainRun, h]

/-- Witness for C6 at a concrete empty fetch with no prior file. -/
theorem main_empty_fetch_no_op_witness :
    fetch_data (.ok []) = [] ∧
    mainRun none (.ok []) = ⟨true, false, false, false, none⟩ :=
  ⟨rfl, main_empty_fetch_no_op.2 none (.ok []) rfl⟩

/-- The any-test of insertCategory checks membership of the name column. -/
theorem any_name_iff (cats : List CategoryRow) (n : String) :
    cats.any (fun c => c.name == n) = true ↔ n ∈ cats.map CategoryRow.name := by
  rw [List.any_eq_true]
  constructor
  · rintro ⟨c, hc, hcn⟩
    exact List.mem_map.mpr ⟨c, hc, by simpa using hcn⟩
  · rintro h
    obtain ⟨c, hc, hcn⟩ := List.mem_map.mp h
    exact ⟨c, hc, by simp [hcn]⟩

/-- Inserting a category name updates the name column by insertName. -/
theorem map_name_insertCategory (cats : List CategoryRow) (n : String) :
    (insertCategory cats n).map CategoryRow.name
      = insertName (cats.map CategoryRow.name) n := by
  by_cases h : n ∈ cats.map CategoryRow.name
  · rw [insertCategory, if_pos ((any_name_iff cats n).mpr h), insertName, if_pos h]
  · rw [insertCategory, if_neg (fun hc => h ((any_name_iff cats n).mp hc)),
      insertName, if_neg h]
    simp

/-- Every element of an integer list is at most its foldr max. -/
theorem mem_le_foldr_max {l : List Int} {x : Int} (h : x ∈ l) :
    x ≤ l.foldr max 0 := by
  induction l with
  | nil => simp at h
  | cons a t ih =>
    rcases List.mem_cons.mp h with rfl | hm
    · exact le_max_left _ _
    · exact le_trans (ih hm) (le_max_right _ _)

/-- The AUTOINCREMENT id is fresh: it is not yet in the id column. -/
theorem nextCatId_not_mem (cats : List CategoryRow) :
    nextCatId cats ∉ cats.map CategoryRow.id := by
  intro h
  have := mem_le_foldr_max h
  rw [nextCatId] at this
  omega

/-- After insert-or-ignore of a name, looking the name up succeeds, the
found row is in the table and carries the name; when the name was new, the
found row is the freshly appended one. -/
theorem lookup_insertCategory (cats : List CategoryRow) (n : String) :
    ∃ cid, lookupCategoryId (insertCategory cats n) n = some cid ∧
      ∃ c ∈ insertCategory cats n, c.id = cid ∧ c.name = n ∧
        (n ∉ cats.map CategoryRow.name → c = ⟨nextCatId cats, n⟩) := by
  by_cases h : n ∈ cats.map CategoryRow.name
  · have heq : insertCategory cats n = cats := by
      rw [insertCategory, if_pos ((any_name_iff cats n).mpr h)]
    obtain ⟨c, hc, hcn⟩ := List.mem_map.mp h
    have hsome : (cats.find? (fun c => c.name == n)).isSome := by
      rw [List.find?_isSome]
      exact ⟨c, hc, by simp [hcn]⟩
    obtain ⟨c0, hc0⟩ := Option.isSome_iff_exists.mp hsome
    refine ⟨c0.id, ?_, c0, ?_, rfl, ?_, fun hn => absurd h hn⟩
    · rw [lookupCategoryId, heq, hc0]; rfl
    · rw [heq]; exact List.mem_of_find?_eq_some hc0
    · simpa using List.find?_some hc0
  · have heq : insertCategory cats n = cats ++ [⟨nextCatId cats, n⟩] := by
      rw [insertCategory, if_neg (fun hc => h ((any_name_iff cats n).mp hc))]
    have hnone : cats.find? (fun c => c.name == n) = none := by
      rw [List.find?_eq_none]
      intro c hc hcn
      exact h (List.mem_map.mpr ⟨c, hc, by simpa using hcn⟩)
    refine ⟨nextCatId cats, ?_, ⟨nextCatId cats, n⟩, ?_, rfl, rfl, fun _ => rfl⟩
    · rw [lookupCategoryId, heq, List.find?_append, hnone]
      simp
    · rw [heq]; simp

/-- The empty schema is well formed. -/
theorem WF_empty : WF emptyDB := by
  refine ⟨?_, ?_, ?_, ?_, ?_, ?_⟩ <;> simp [emptyDB]

/-- A record whose id already keys a product row makes the loop step raise
a primary-key violation. -/
theorem insertRecord_none (db : DB) (p : Record)
    (h : p.id ∈ db.products.map ProductRow.id) :
    insertRecord db p = none := by
  obtain ⟨cid, hl, _⟩ := lookup_insertCategory db.categories p.category
  have hany : db.products.any (fun q => q.id == p.id) = true := by
    rw [List.any_eq_true]
    obtain ⟨q, hq, hqid⟩ := List.mem_map.mp h
    exact ⟨q, hq, by simp [hqid]⟩
  rw [insertRecord, hl]
  simp [hany]

/-- A record with a fresh id makes the loop step succeed, preserving
well-formedness and extending the tables in the stated way. -/
theorem insertRecord_some (db : DB) (p : Record) (hwf : WF db)
    (h : p.id ∉ db.products.map ProductRow.id) :
    ∃ db1, insertRecord db p = some db1 ∧ WF db1 ∧
      db1.categories.map CategoryRow.name
        = insertName (db.categories.map CategoryRow.name) p.category ∧
      db1.products.map ProductRow.id = db.products.map ProductRow.id ++ [p.id] ∧
      db1.products.length = db.products.length + 1 := by
  obtain ⟨cid, hl, c, hcmem, hcid, hcname, hfresh⟩ :=
    lookup_insertCategory db.categories p.category
  have hany : ¬ db.products.any (fun q => q.id == p.id) = true := by
    rw [List.any_eq_true]
    rintro ⟨q, hq, hqid⟩
    exact h (List.mem_map.mpr ⟨q, hq, by simpa using hqid⟩)
  have hrat : ¬ db.ratings.any (fun r => r.product_id == p.id) = true := by
    rw [List.any_eq_true]
    rintro ⟨r, hr, hrid⟩
    refine h ?_
    rw [← hwf.ratProd]
    exact List.mem_map.mpr ⟨r, hr, by simpa using hrid⟩
  refine ⟨⟨insertCategory db.categories p.category,
      db.products ++ [⟨p.id, p.title, p.price, cid⟩],
      db.ratings ++ [⟨p.id, p.rate, p.count⟩]⟩, ?_, ?_, ?_, ?_, ?_⟩
  · rw [insertRecord, hl]
    simp [hany, hrat]
  · constructor
    · rw [List.map_append, List.nodup_append]
      refine ⟨hwf.prodIds, by simp, fun x hx hx1 => ?_⟩
      simp only [List.map_cons, List.map_nil, List.mem_singleton] at hx1
      exact h (hx1 ▸ hx)
    · simp only [List.map_append, hwf.ratProd, List.map_cons, List.map_nil]
    · rw [map_name_insertCategory, insertName]
      by_cases hn : p.category ∈ db.categories.map CategoryRow.name
      · rw [if_pos hn]; exact hwf.catNames
      · rw [if_neg hn, List.nodup_append]
        exact ⟨hwf.catNames, by simp, fun x hx hx1 => by
          simp only [List.mem_singleton] at hx1
          exact hn (hx1 ▸ hx)⟩
    · rw [insertCategory]
      by_cases hn : db.categories.any (fun c => c.name == p.category) = true
      · rw [if_pos hn]; exact hwf.catIds
      · rw [if_neg hn, List.map_append, List.nodup_append]
        refine ⟨hwf.catIds, by simp, fun x hx hx1 => ?_⟩
        simp only [List.map_cons, List.map_nil, List.mem_singleton] at hx1
        exact nextCatId_not_mem db.categories (hx1 ▸ hx)
    · intro q hq
      rcases List.mem_append.mp hq with hq | hq
      · have := hwf.prodCat q hq
        obtain ⟨c0, hc0, hc0id⟩ := List.mem_map.mp this
        refine List.mem_map.mpr ⟨c0, ?_, hc0id⟩
        rw [insertCategory]
        by_cases hn : db.categories.any (fun c => c.name == p.category) = true
        · rw [if_pos hn]; exact hc0
        · rw [if_neg hn]; exact List.mem_append_left _ hc0
      · simp only [List.mem_singleton] at hq
        subst hq
        exact List.mem_map.mpr ⟨c, hcmem, hcid⟩
    · intro c1 hc1
      rcases hcase : db.categories.any (fun cc => cc.name == p.category) with hfalse | htrue
      · have heq : insertCategory db.categories p.category
            = db.categories ++ [⟨nextCatId db.categories, p.category⟩] := by
          rw [insertCategory, hcase]; simp
        rw [heq] at hc1
        rcases List.mem_append.mp hc1 with hc1 | hc1
        · obtain ⟨q, hq, hqc⟩ := hwf.catInhab c1 hc1
          exact ⟨q, List.mem_append_left _ hq, hqc⟩
        · simp only [List.mem_singleton] at hc1
          subst hc1
          have hnn : p.category ∉ db.categories.map CategoryRow.name := by
            intro hmm
            rw [(any_name_iff db.categories p.category).mpr hmm] at hcase
            cases hcase
          have hceq := hfresh hnn
          refine ⟨⟨p.id, p.title, p.price, cid⟩,
            List.mem_append_right _ (by simp), ?_⟩
          have : cid = nextCatId db.categories := by rw [← hcid, hceq]
          simp [this]
      · have heq : insertCategory db.categories p.category = db.categories := by
          rw [insertCategory, hcase]; simp
        rw [heq] at hc1
        obtain ⟨q, hq, hqc⟩ := hwf.catInhab c1 hc1
        exact ⟨q, List.mem_append_left _ hq, hqc⟩
  · exact map_name_insertCategory db.categories p.category
  · simp
  · simp

/-- Invariant of the whole load loop: when it returns normally it preserves
well-formedness, the name column accumulates by insertName over the record
categories, and the product id column is extended by the record ids in
order. -/
theorem insertLoop_inv : ∀ (ps : List Record) (db db1 : DB), WF db →
    insertLoop db ps = some db1 →
    WF db1 ∧
    db1.categories.map CategoryRow.name
      = ps.foldl (fun ns r => insertName ns r.category)
          (db.categories.map CategoryRow.name) ∧
    db1.products.map ProductRow.id
      = db.products.map ProductRow.id ++ ps.map Record.id ∧
    db1.products.length = db.products.length + ps.length := by
  intro ps
  induction ps with
  | nil =>
    intro db db1 hwf h
    rw [insertLoop, List.foldlM_nil] at h
    cases h
    exact ⟨hwf, rfl, by simp, rfl⟩
  | cons p ps ih =>
    intro db db1 hwf h
    rw [insertLoop, List.foldlM_cons] at h
    cases hrec : insertRecord db p with
    | none => rw [hrec] at h; cases h
    | some dbm =>
      rw [hrec] at h
      simp only [Option.bind_eq_bind, Option.some_bind] at h
      have hnot : p.id ∉ db.products.map ProductRow.id := by
        intro hmem
        rw [insertRecord_none db p hmem] at hrec
        cases hrec
      obtain ⟨dbm2, hrec2, hwfm, hnames, hids, hlen⟩ := insertRecord_some db p hwf hnot
      rw [hrec2] at hrec
      cases hrec
      obtain ⟨hwf1, hnames1, hids1, hlen1⟩ := ih dbm db1 hwfm h
      refine ⟨hwf1, ?_, ?_, ?_⟩
      · rw [hnames1, List.foldl_cons, hnames]
      · rw [hids1, hids, List.append_assoc, List.singleton_append, List.map_cons]
      · rw [hlen1, hlen, List.length_cons]
        omega

/-- The load loop returns normally exactly when the incoming record ids
avoid the present product ids and each other. -/
theorem insertLoop_isSome_iff : ∀ (ps : List Record) (db : DB), WF db →
    ((insertLoop db ps).isSome = true ↔
      (db.products.map ProductRow.id ++ ps.map Record.id).Nodup) := by
  intro ps
  induction ps with
  | nil =>
    intro db hwf
    rw [insertLoop, List.foldlM_nil]
    simpa using hwf.prodIds
  | cons p ps ih =>
    intro db hwf
    rw [insertLoop, List.foldlM_cons]
    by_cases hmem : p.id ∈ db.products.map ProductRow.id
    · rw [insertRecord_none db p hmem]
      have hnd : ¬ (db.products.map ProductRow.id ++ p.id :: ps.map Record.id).Nodup := by
        intro hnd
        rw [List.nodup_append] at hnd
        exact hnd.2.2 hmem (by simp)
      simp [hnd]
    · obtain ⟨dbm, hrec, hwfm, _, hids, _⟩ := insertRecord_some db p hwf hmem
      rw [hrec]
      simp only [Option.bind_eq_bind, Option.some_bind]
      have := ih dbm hwfm
      rw [hids] at this
      rw [show (List.foldlM insertRecord dbm ps) = insertLoop dbm ps from rfl, this,
        List.append_assoc, List.singleton_append, List.map_cons]

/-- insertName preserves absence of duplicates in the name column. -/
theorem insertName_nodup (ns : List String) (n : String) (h : ns.Nodup) :
    (insertName ns n).Nodup := by
  rw [insertName]
  by_cases hn : n ∈ ns
  · rw [if_pos hn]; exact h
  · rw [if_neg hn, List.nodup_append]
    exact ⟨h, by simp, fun x hx hx1 => by
      simp only [List.mem_singleton] at hx1
      exact hn (hx1 ▸ hx)⟩

/-- Folding insertName preserves absence of duplicates. -/
theorem foldl_insertName_nodup :
    ∀ (l : List String) (ns : List String), ns.Nodup → (l.foldl insertName ns).Nodup := by
  intro l
  induction l with
  | nil => intro ns h; exact h
  | cons a t ih =>
    intro ns h
    rw [List.foldl_cons]
    exact ih _ (insertName_nodup ns a h)

/-- insertName updates the set of names by insertion. -/
theorem insertName_toFinset (ns : List String) (n : String) :
    (insertName ns n).toFinset = insert n ns.toFinset := by
  rw [insertName]
  by_cases hn : n ∈ ns
  · rw [if_pos hn]
    exact (Finset.insert_eq_self.mpr (List.mem_toFinset.mpr hn)).symm
  · rw [if_neg hn, List.toFinset_append]
    simp [Finset.union_comm, Finset.insert_eq]

/-- Folding insertName accumulates exactly the set of folded names. -/
theorem foldl_insertName_toFinset :
    ∀ (l : List String) (ns : List String),
      (l.foldl insertName ns).toFinset = ns.toFinset ∪ l.toFinset := by
  intro l
  induction l with
  | nil => intro ns; simp
  | cons a t ih =>
    intro ns
    rw [List.foldl_cons, ih, insertName_toFinset]
    simp [Finset.insert_union, Finset.union_insert]

/-- Folding insertName from the empty column yields one entry per distinct
folded name. -/
theorem foldl_insertName_length (l : List String) :
    (l.foldl insertName []).length = l.dedup.length := by
  have hnd := foldl_insertName_nodup l [] List.nodup_nil
  have hfs : (l.foldl insertName []).toFinset = l.toFinset := by
    rw [foldl_insertName_toFinset]; simp
  calc (l.foldl insertName []).length
      = (l.foldl insertName []).toFinset.card := (List.toFinset_card_of_nodup hnd).symm
    _ = l.toFinset.card := by rw [hfs]
    _ = l.dedup.length := List.card_toFinset l

/-- After a committed load into the fresh schema, the categories table has
one row per distinct category string of the input. -/
theorem categories_length_eq (ps : List Record) (db : DB)
    (h : insertLoop emptyDB ps = some db) :
    db.categories.length = (ps.map Record.category).dedup.length := by
  obtain ⟨-, hnames, -, -⟩ := insertLoop_inv ps emptyDB db WF_empty h
  have h1 : db.categories.length = (db.categories.map CategoryRow.name).length :=
    (List.length_map _ _).symm
  rw [h1, hnames]
  have h2 : emptyDB.categories.map CategoryRow.name = ([] : List String) := rfl
  rw [h2, ← List.foldl_map Record.category insertName ps []]
  exact foldl_insertName_length (ps.map Record.category)

/-- C4: after a committed load into the fresh schema, the categories table
has exactly one row per distinct category string of the input (a duplicate
category name is a no-op of insert-or-ignore, not an error). -/
theorem load_category_count (ps : List Record) (db : DB)
    (h : insertLoop emptyDB ps = some db) :
    db.categories.length = (ps.map Record.category).dedup.length :=
  categories_length_eq ps db h

/-- C5: after a committed load into the fresh schema, product_id is unique
in the ratings table and every product row has exactly one rating row
keyed by its id. -/
theorem load_rating_one_to_one (ps : List Record) (db : DB)
    (h : insertLoop emptyDB ps = some db) :
    (db.ratings.map RatingRow.product_id).Nodup ∧
    ∀ p ∈ db.products,
      (db.ratings.filter (fun r => r.product_id == p.id)).length = 1 := by
  obtain ⟨hwf, -, -, -⟩ := insertLoop_inv ps emptyDB db WF_empty h
  constructor
  · rw [hwf.ratProd]; exact hwf.prodIds
  · intro p hp
    have hmem : p.id ∈ db.ratings.map RatingRow.product_id := by
      rw [hwf.ratProd]
      exact List.mem_map.mpr ⟨p, hp, rfl⟩
    have hnd : (db.ratings.map RatingRow.product_id).Nodup := by
      rw [hwf.ratProd]; exact hwf.prodIds
    have h1 : List.count p.id (db.ratings.map RatingRow.product_id) = 1 :=
      List.count_eq_one_of_mem hnd hmem
    rw [← List.countP_eq_length_filter]
    calc List.countP (fun r => r.product_id == p.id) db.ratings
        = List.countP (fun x => x == p.id) (db.ratings.map RatingRow.product_id) := by
          rw [List.countP_map]; rfl
      _ = 1 := h1

/-- C2: insert_data commits once at the end: with pairwise-distinct record
ids the whole batch is committed together, and with a duplicate record id
the constraint violation escapes before the commit and the committed state
stays exactly the freshly created empty schema. -/
theorem insert_data_atomic_commit (ps : List Record) (db : DB) :
    (¬ (ps.map Record.id).Nodup →
      insert_data (create_database db) ps = (create_database db, false)) ∧
    ((ps.map Record.id).Nodup →
      ∃ db1, insert_data (create_database db) ps = (db1, true) ∧
        db1.products.length = ps.length) := by
  have hiff := insertLoop_isSome_iff ps emptyDB WF_empty
  have hids : emptyDB.products.map ProductRow.id = ([] : List Int) := rfl
  rw [hids, List.nil_append] at hiff
  constructor
  · intro hdup
    have hnone : insertLoop emptyDB ps = none := by
      cases hcase : insertLoop emptyDB ps with
      | none => rfl
      | some d =>
        exact absurd (hiff.mp (by rw [hcase]; rfl)) hdup
    show insert_data emptyDB ps = (emptyDB, false)
    rw [insert_data, hnone]
  · intro hnd
    obtain ⟨d, hd⟩ := Option.isSome_iff_exists.mp (hiff.mpr hnd)
    obtain ⟨-, -, -, hlen⟩ := insertLoop_inv ps emptyDB d WF_empty hd
    refine ⟨d, ?_, by simpa [emptyDB] using hlen⟩
    show insert_data emptyDB ps = (d, true)
    rw [insert_data, hd]

/-- Witness for C2: a batch with a duplicate id 1 commits nothing, and a
batch with distinct ids commits all three rows. -/
theorem insert_data_atomic_commit_witness :
    (¬ (dupRecords.map Record.id).Nodup ∧
      insert_data (create_database emptyDB) dupRecords = (create_database emptyDB, false)) ∧
    ((ex3Records.map Record.id).Nodup ∧
      ∃ db1, insert_data (create_database emptyDB) ex3Records = (db1, true) ∧
        db1.products.length = ex3Records.length) :=
  ⟨⟨by decide, (insert_data_atomic_commit dupRecords emptyDB).1 (by decide)⟩,
   ⟨by decide, (insert_data_atomic_commit ex3Records emptyDB).2 (by decide)⟩⟩

/-- Witness for C4 on three records across two distinct category names. -/
theorem load_category_count_witness :
    insertLoop emptyDB ex3Records = some ex3DB ∧
    ex3DB.categories.length = (ex3Records.map Record.category).dedup.length :=
  ⟨rfl, load_category_count ex3Records ex3DB rfl⟩

/-- Witness for C5 on three loaded records. -/
theorem load_rating_one_to_one_witness :
    insertLoop emptyDB ex3Records = some ex3DB ∧
    ((ex3DB.ratings.map RatingRow.product_id).Nodup ∧
      ∀ p ∈ ex3DB.products,
        (ex3DB.ratings.filter (fun r => r.product_id == p.id)).length = 1) :=
  ⟨rfl, load_rating_one_to_one ex3Records ex3DB rfl⟩

/-- Sums of pointwise sums of two mapped functions split. -/
theorem sum_map_add {α : Type} (l : List α) (f g : α → Nat) :
    (l.map (fun a => f a + g a)).sum = (l.map f).sum + (l.map g).sum := by
  induction l with
  | nil => simp
  | cons a t ih =>
    rw [List.map_cons, List.map_cons, List.map_cons, List.sum_cons, List.sum_cons,
      List.sum_cons, ih]
    omega

/-- Over categories with pairwise-distinct ids, the indicator of one
present id sums to one. -/
theorem sum_indicator (cats : List CategoryRow) (x : Int)
    (hnd : (cats.map CategoryRow.id).Nodup) (hx : x ∈ cats.map CategoryRow.id) :
    (cats.map (fun c => if x == c.id then 1 else 0)).sum = 1 := by
  induction cats with
  | nil => simp at hx
  | cons a t ih =>
    rw [List.map_cons, List.nodup_cons] at hnd
    rw [List.map_cons, List.mem_cons] at hx
    rw [List.map_cons, List.sum_cons]
    rcases hx with rfl | hm
    · rw [if_pos (by simp)]
      have hz : ∀ y ∈ t.map (fun c => if a.id == c.id then 1 else 0), y = 0 := by
        intro y hy
        obtain ⟨c, hc, hcy⟩ := List.mem_map.mp hy
        have hne : ¬ (a.id == c.id) = true := by
          simp only [beq_iff_eq]
          intro hxe
          exact hnd.1 (by rw [hxe]; exact List.mem_map.mpr ⟨c, hc, rfl⟩)
        rw [← hcy, if_neg hne]
      rw [List.sum_eq_zero hz]
      omega
    · have hne : ¬ (x == a.id) = true := by
        simp only [beq_iff_eq]
        rintro rfl
        exact hnd.1 hm
      rw [if_neg hne, ih hnd.2 hm]

/-- Products whose category ids all occur in a duplicate-free category
table are counted exactly once across the per-category filters. -/
theorem sum_filter_lengths (cats : List CategoryRow) :
    ∀ ps : List ProductRow, (cats.map CategoryRow.id).Nodup →
      (∀ p ∈ ps, p.category_id ∈ cats.map CategoryRow.id) →
      (cats.map (fun c => (ps.filter (fun p => p.category_id == c.id)).length)).sum
        = ps.length := by
  intro ps
  induction ps with
  | nil => intro _ _; simp
  | cons p t ih =>
    intro hnd hsub
    have hsub2 : ∀ q ∈ t, q.category_id ∈ cats.map CategoryRow.id :=
      fun q hq => hsub q (List.mem_cons_of_mem _ hq)
    have hp := hsub p (List.mem_cons_self _ _)
    have hsplit : ∀ c : CategoryRow,
        ((p :: t).filter (fun q => q.category_id == c.id)).length
          = (if p.category_id == c.id then 1 else 0)
            + (t.filter (fun q => q.category_id == c.id)).length := by
      intro c
      rw [List.filter_cons]
      by_cases hc : (p.category_id == c.id) = true
      · rw [if_pos hc, if_pos hc, List.length_cons]; omega
      · rw [if_neg hc, if_neg hc]; omega
    calc (cats.map fun c => ((p :: t).filter (fun q => q.category_id == c.id)).length).sum
        = (cats.map fun c => (if p.category_id == c.id then 1 else 0)
            + (t.filter (fun q => q.category_id == c.id)).length).sum := by
          simp only [hsplit]
      _ = (cats.map fun c => if p.category_id == c.id then 1 else 0).sum
            + (cats.map fun c => (t.filter (fun q => q.category_id == c.id)).length).sum :=
          sum_map_add cats _ _
      _ = 1 + t.length := by rw [sum_indicator cats p.category_id hnd hp, ih hnd hsub2]
      _ = (p :: t).length := by rw [List.length_cons]; omega

/-- filterMap drops nothing when the function succeeds everywhere. -/
theorem length_filterMap_of_isSome {α β : Type} (f : α → Option β) :
    ∀ l : List α, (∀ a ∈ l, (f a).isSome = true) →
      (l.filterMap f).length = l.length := by
  intro l
  induction l with
  | nil => intro _; simp
  | cons a t ih =>
    intro h
    cases hf : f a with
    | none =>
      have := h a (List.mem_cons_self _ _)
      rw [hf] at this
      cases this
    | some b =>
      simp only [List.filterMap_cons, hf, List.length_cons]
      rw [ih (fun x hx => h x (List.mem_cons_of_mem _ hx))]

/-- Summing a projection over a filterMap equals summing the matching
per-element contribution, counting dropped elements as zero. -/
theorem sum_map_filterMap {α β : Type} (f : α → Option β) (g : β → Nat) (h : α → Nat) :
    ∀ l : List α, (∀ a ∈ l, (match f a with | some b => g b | none => 0) = h a) →
      ((l.filterMap f).map g).sum = (l.map h).sum := by
  intro l
  induction l with
  | nil => intro _; simp
  | cons a t ih =>
    intro hl
    have ha := hl a (List.mem_cons_self _ _)
    have ht := fun x hx => hl x (List.mem_cons_of_mem _ hx)
    cases hf : f a with
    | none =>
      simp only [hf] at ha
      simp only [List.filterMap_cons, hf, List.map_cons, List.sum_cons, ← ha]
      rw [ih ht]
      omega
    | some b =>
      simp only [hf] at ha
      simp only [List.filterMap_cons, hf, List.map_cons, List.sum_cons, ← ha]
      rw [ih ht]

/-- The grouping key of a produced query-1 row is the category id. -/
theorem q1row_catId (db : DB) (c : CategoryRow) (x : Q1Row)
    (h : q1row db c = some x) : x.catId = c.id := by
  simp only [q1row] at h
  by_cases he : (db.products.filter (fun p => p.category_id == c.id)).isEmpty = true
  · rw [if_pos he] at h; cases h
  · rw [if_neg he] at h
    cases h
    rfl

/-- The count of a produced query-1 row is the size of its group. -/
theorem q1row_count (db : DB) (c : CategoryRow) (x : Q1Row)
    (h : q1row db c = some x) :
    x.count = (db.products.filter (fun p => p.category_id == c.id)).length := by
  simp only [q1row] at h
  by_cases he : (db.products.filter (fun p => p.category_id == c.id)).isEmpty = true
  · rw [if_pos he] at h; cases h
  · rw [if_neg he] at h
    cases h
    rfl

/-- A category with a dropped query-1 row has an empty group. -/
theorem q1row_none (db : DB) (c : CategoryRow) (h : q1row db c = none) :
    db.products.filter (fun p => p.category_id == c.id) = [] := by
  simp only [q1row] at h
  by_cases he : (db.products.filter (fun p => p.category_id == c.id)).isEmpty = true
  · exact List.isEmpty_iff.mp he
  · rw [if_neg he] at h
    cases h

/-- A category with a product in it produces a query-1 row. -/
theorem q1row_isSome (db : DB) (c : CategoryRow) (p : ProductRow)
    (hp : p ∈ db.products) (hpc : p.category_id = c.id) :
    (q1row db c).isSome = true := by
  have hne : db.products.filter (fun q => q.category_id == c.id) ≠ [] :=
    List.ne_nil_of_mem (List.mem_filter.mpr ⟨hp, by simp [hpc]⟩)
  simp only [q1row]
  rw [if_neg (fun he => hne (List.isEmpty_iff.mp he))]
  rfl

/-- C7: for a committed load into the fresh schema, query 1 emits one row
per distinct input category string, its product counts sum to the number
of loaded records, its rows are ordered by the internal category id, and
each emitted triple is the category name with the group count and the
rounded average price. -/
theorem query1_category_summary (ps : List Record) (db : DB)
    (h : insertLoop emptyDB ps = some db) :
    (query1Full db).length = (ps.map Record.category).dedup.length ∧
    ((query1Full db).map Q1Row.count).sum = ps.length ∧
    List.Sorted (fun a b : Q1Row => a.catId ≤ b.catId) (query1Full db) ∧
    query1 db = (query1Full db).map (fun x => (x.name, x.count, x.avgPrice)) := by
  obtain ⟨hwf, hnames, hids, hlen⟩ := insertLoop_inv ps emptyDB db WF_empty h
  have hperm : (sortedCategories db).Perm db.categories :=
    List.perm_insertionSort catIdLe db.categories
  have hsome : ∀ c ∈ sortedCategories db, (q1row db c).isSome = true := by
    intro c hc
    obtain ⟨p, hp, hpc⟩ := hwf.catInhab c (hperm.mem_iff.mp hc)
    exact q1row_isSome db c p hp hpc
  refine ⟨?_, ?_, ?_, rfl⟩
  · rw [query1Full, length_filterMap_of_isSome (q1row db) _ hsome, hperm.length_eq]
    exact categories_length_eq ps db h
  · rw [query1Full]
    rw [sum_map_filterMap (q1row db) Q1Row.count
      (fun c => (db.products.filter (fun p => p.category_id == c.id)).length)
      (sortedCategories db) ?_]
    · rw [(hperm.map (fun c =>
        (db.products.filter (fun p => p.category_id == c.id)).length)).sum_eq]
      rw [sum_filter_lengths db.categories db.products hwf.catIds hwf.prodCat]
      rw [show emptyDB.products.length = 0 from rfl] at hlen
      omega
    · intro c hc
      cases hq : q1row db c with
      | none =>
        show (0 : Nat) = (db.products.filter (fun p => p.category_id == c.id)).length
        rw [q1row_none db c hq]
        rfl
      | some x =>
        show x.count = (db.products.filter (fun p => p.category_id == c.id)).length
        exact q1row_count db c x hq
  · show List.Pairwise _ _
    rw [query1Full, List.pairwise_filterMap]
    have hs : List.Pairwise catIdLe (sortedCategories db) :=
      List.sorted_insertionSort catIdLe db.categories
    refine hs.imp ?_
    intro a b hab x hx y hy
    rw [q1row_catId db a x (Option.mem_def.mp hx), q1row_catId db b y (Option.mem_def.mp hy)]
    exact hab

/-- Witness for C7 on three records across two categories. -/
theorem query1_category_summary_witness :
    insertLoop emptyDB ex3Records = some ex3DB ∧
    ((query1Full ex3DB).length = (ex3Records.map Record.category).dedup.length ∧
     ((query1Full ex3DB).map Q1Row.count).sum = ex3Records.length ∧
     List.Sorted (fun a b : Q1Row => a.catId ≤ b.catId) (query1Full ex3DB) ∧
     query1 ex3DB = (query1Full ex3DB).map (fun x => (x.name, x.count, x.avgPrice))) :=
  ⟨rfl, query1_category_summary ex3Records ex3DB rfl⟩

/-- C3: for every nonempty committed load, query 2 returns exactly one
group, a category present among the per-category sums whose summed rating
count is maximal over all categories. -/
theorem query2_top_category_max (ps : List Record) (db : DB)
    (hps : ps ≠ []) (h : insertLoop emptyDB ps = some db) :
    ∃ g, query2 db = some g ∧ g ∈ query2Groups db ∧
      ∀ x ∈ query2Groups db, x.2 ≤ g.2 := by
  obtain ⟨hwf, -, -, -⟩ := insertLoop_inv ps emptyDB db WF_empty h
  have hperm : (sortedCategories db).Perm db.categories :=
    List.perm_insertionSort catIdLe db.categories
  have hcats : db.categories ≠ [] := by
    intro hc
    have h0 := categories_length_eq ps db h
    rw [hc] at h0
    have : (ps.map Record.category).dedup = [] := List.length_eq_zero.mp h0.symm
    have : ps.map Record.category = [] := by
      rwa [List.dedup_eq_nil] at this
    exact hps (List.map_eq_nil_iff.mp this)
  obtain ⟨c, hc⟩ := List.exists_mem_of_ne_nil db.categories hcats
  obtain ⟨p, hpmem, hpcat⟩ := hwf.catInhab c hc
  have hpid : p.id ∈ db.ratings.map RatingRow.product_id := by
    rw [hwf.ratProd]
    exact List.mem_map.mpr ⟨p, hpmem, rfl⟩
  obtain ⟨r, hrmem, hrid⟩ := List.mem_map.mp hpid
  have hsale : r ∈ categorySales db c.id := by
    rw [categorySales]
    refine List.mem_flatMap.mpr ⟨r, hrmem, ?_⟩
    exact List.mem_map.mpr ⟨p, List.mem_filter.mpr ⟨hpmem, by simp [hrid, hpcat]⟩, rfl⟩
  have hgroup : (c.name, ((categorySales db c.id).map RatingRow.count).sum)
      ∈ query2Groups db := by
    rw [query2Groups]
    refine List.mem_filterMap.mpr ⟨c, hperm.mem_iff.mpr hc, ?_⟩
    have hne : categorySales db c.id ≠ [] := List.ne_nil_of_mem hsale
    simp only [q2group]
    rw [if_neg (fun he => hne (List.isEmpty_iff.mp he))]
  have hne2 : query2Groups db ≠ [] := List.ne_nil_of_mem hgroup
  have hperm2 : (List.insertionSort countGe (query2Groups db)).Perm (query2Groups db) :=
    List.perm_insertionSort countGe (query2Groups db)
  have hsne : List.insertionSort countGe (query2Groups db) ≠ [] := by
    intro hnil
    exact hne2 (List.Perm.nil_eq (hnil ▸ hperm2)).symm
  obtain ⟨g, rest, hcons⟩ := List.exists_cons_of_ne_nil hsne
  have hsorted : List.Pairwise countGe (List.insertionSort countGe (query2Groups db)) :=
    List.sorted_insertionSort countGe (query2Groups db)
  rw [hcons] at hsorted
  refine ⟨g, ?_, ?_, ?_⟩
  · rw [query2, hcons]
    rfl
  · exact hperm2.mem_iff.mp (hcons ▸ List.mem_cons_self g rest)
  · intro x hx
    have hxs : x ∈ g :: rest := by
      rw [← hcons]
      exact hperm2.mem_iff.mpr hx
    rcases List.mem_cons.mp hxs with rfl | hxr
    · exact le_refl _
    · exact (List.pairwise_cons.mp hsorted).1 x hxr

/-- Witness for C3: two categories with summed rating counts 100 and 250;
the returned top category is the one summing to 250. -/
theorem query2_top_category_max_witness :
    ex2Records ≠ [] ∧
    insertLoop emptyDB ex2Records = some ex2DB ∧
    (∃ g, query2 ex2DB = some g ∧ g ∈ query2Groups ex2DB ∧
      ∀ x ∈ query2Groups ex2DB, x.2 ≤ g.2) ∧
    query2 ex2DB = some ("B", 250) :=
  ⟨by decide, rfl,
   query2_top_category_max ex2Records ex2DB (by decide) rfl,
   by decide⟩

/-- Membership in the rows of query 4: exactly the joined product, category
and rating triples whose rating strictly exceeds the correlated average
rating of the product's category. -/
theorem mem_query4Rows {db : DB} {x : Q4Row} :
    x ∈ query4Rows db ↔
      ∃ p ∈ db.products, ∃ cat ∈ db.categories, ∃ r ∈ db.ratings,
        p.category_id = cat.id ∧ p.id = r.product_id ∧
        categorySales db p.category_id ≠ [] ∧
        ((categorySales db p.category_id).map RatingRow.rate).sum
            / ((categorySales db p.category_id).length : ℚ) < r.rate ∧
        x = ⟨p, cat.name, r.rate,
          ((categorySales db p.category_id).map RatingRow.rate).sum
            / ((categorySales db p.category_id).length : ℚ)⟩ := by
  rw [query4Rows]
  rw [(List.perm_insertionSort rateGe (query4Unsorted db)).mem_iff, query4Unsorted]
  rw [List.mem_flatMap]
  constructor
  · rintro ⟨p, hp, hinner⟩
    rw [List.mem_flatMap] at hinner
    obtain ⟨cat, hcatf, hfm⟩ := hinner
    obtain ⟨hcat, hpc⟩ := List.mem_filter.mp hcatf
    rw [List.mem_filterMap] at hfm
    obtain ⟨r, hrf, hmr⟩ := hfm
    obtain ⟨hrr, hpr⟩ := List.mem_filter.mp hrf
    cases havg : avgCatRating db p.category_id with
    | none =>
      simp only [havg] at hmr
      cases hmr
    | some a =>
      simp only [havg] at hmr
      by_cases hlt : a < r.rate
      · rw [if_pos hlt] at hmr
        cases hmr
        have hne : categorySales db p.category_id ≠ [] := by
          intro hnil
          simp only [avgCatRating, hnil, List.isEmpty_nil, if_true] at havg
          cases havg
        have haeq : a = ((categorySales db p.category_id).map RatingRow.rate).sum
            / ((categorySales db p.category_id).length : ℚ) := by
          simp only [avgCatRating] at havg
          rw [if_neg (fun he => hne (List.isEmpty_iff.mp he))] at havg
          exact (Option.some_inj.mp havg).symm
        exact ⟨p, hp, cat, hcat, r, hrr, by simpa using hpc, by simpa using hpr,
          hne, haeq ▸ hlt, by rw [haeq]⟩
      · rw [if_neg hlt] at hmr
        cases hmr
  · rintro ⟨p, hp, cat, hcat, r, hr, hpc, hpr, hne, hlt, hxeq⟩
    refine ⟨p, hp, ?_⟩
    rw [List.mem_flatMap]
    refine ⟨cat, List.mem_filter.mpr ⟨hcat, by simp [hpc]⟩, ?_⟩
    rw [List.mem_filterMap]
    refine ⟨r, List.mem_filter.mpr ⟨hr, by simp [hpr]⟩, ?_⟩
    have havg : avgCatRating db p.category_id
        = some (((categorySales db p.category_id).map RatingRow.rate).sum
            / ((categorySales db p.category_id).length : ℚ)) := by
      simp only [avgCatRating]
      rw [if_neg (fun he => hne (List.isEmpty_iff.mp he))]
    simp only [havg]
    rw [if_pos hlt, hxeq]

/-- flatMap of a guarded singleton is a filter. -/
theorem flatMap_ite {α : Type} (c : α → Bool) :
    ∀ l : List α, (l.flatMap (fun t => if c t then [t] else [])) = l.filter c := by
  intro l
  induction l with
  | nil => rfl
  | cons a t ih =>
    rw [List.flatMap_cons, List.filter_cons, ih]
    by_cases hc : c a = true
    · rw [if_pos hc, if_pos hc]
      rfl
    · rw [if_neg hc, if_neg hc]
      rfl

/-- C1: query 4 returns a joined row exactly when its rating strictly
exceeds the average rating of its product's category (the average taken
over the category's joined rating rows, the row itself included), the rows
come out sorted descending by rating, and on the loaded category with
ratings 3.0, 4.0 and 5.0, whose average is 4.0, exactly the product rated
5.0 is returned. -/
theorem query4_above_category_average :
    (∀ (db : DB) (x : Q4Row), x ∈ query4Rows db ↔
      ∃ p ∈ db.products, ∃ cat ∈ db.categories, ∃ r ∈ db.ratings,
        p.category_id = cat.id ∧ p.id = r.product_id ∧
        categorySales db p.category_id ≠ [] ∧
        ((categorySales db p.category_id).map RatingRow.rate).sum
            / ((categorySales db p.category_id).length : ℚ) < r.rate ∧
        x = ⟨p, cat.name, r.rate,
          ((categorySales db p.category_id).map RatingRow.rate).sum
            / ((categorySales db p.category_id).length : ℚ)⟩) ∧
    (∀ db : DB, List.Sorted rateGe (query4Rows db)) ∧
    insertLoop emptyDB ex1Records = some ex1DB ∧
    query4 ex1DB = [("p3", "A", 5, 4)] := by
  refine ⟨fun db x => mem_query4Rows, fun db => List.sorted_insertionSort rateGe _, rfl, ?_⟩
  norm_num [query4, query4Rows, query4Unsorted, avgCatRating, categorySales, ex1DB,
    List.insertionSort, List.orderedInsert]

/-- C10: a product that is alone in its category, with its single rating
row, never appears among the rows of query 4: its rating equals its
category's average and the filter requires a strict excess. -/
theorem query4_singleton_category_excluded (db : DB) (p : ProductRow) (r : RatingRow)
    (hp : db.products.filter (fun q => q.category_id == p.category_id) = [p])
    (hr : db.ratings.filter (fun t => t.product_id == p.id) = [r]) :
    ∀ x ∈ query4Rows db, x.product ≠ p := by
  intro x hx heq
  obtain ⟨p1, hp1, cat, hcat, r1, hr1, hpc, hpr, hne, hlt, hxeq⟩ := mem_query4Rows.mp hx
  have hpp : p1 = p := by rw [hxeq] at heq; exact heq
  subst hpp
  have hfilter : ∀ t : RatingRow,
      db.products.filter (fun q => t.product_id == q.id && q.category_id == p1.category_id)
        = (db.products.filter (fun q => q.category_id == p1.category_id)).filter
            (fun q => t.product_id == q.id) :=
    fun t => (List.filter_filter _ _).symm
  have hsales : categorySales db p1.category_id = [r] := by
    rw [categorySales]
    have hmap : ∀ t : RatingRow,
        (db.products.filter
            (fun q => t.product_id == q.id && q.category_id == p1.category_id)).map
          (fun _ => t) = if t.product_id == p1.id then [t] else [] := by
      intro t
      rw [hfilter t, hp]
      by_cases ht : (t.product_id == p1.id) = true
      · rw [if_pos ht]
        simp [ht]
      · rw [if_neg ht]
        simp [ht]
    simp only [hmap]
    rw [flatMap_ite _ db.ratings, hr]
  have hr1mem : r1 ∈ db.ratings.filter (fun t => t.product_id == p1.id) :=
    List.mem_filter.mpr ⟨hr1, by simp [← hpr]⟩
  rw [hr] at hr1mem
  have hrr1 : r1 = r := List.eq_of_mem_singleton hr1mem
  rw [hsales, hrr1] at hlt
  simp at hlt

/-- Witness for C10: in the loaded three-record store, the product with
id 1 is alone in category A with one rating row, and no query-4 row is it. -/
theorem query4_singleton_category_excluded_witness :
    ex3DB.products.filter
        (fun q => q.category_id == (⟨1, "p1", 10, 1⟩ : ProductRow).category_id)
      = [⟨1, "p1", 10, 1⟩] ∧
    ex3DB.ratings.filter (fun t => t.product_id == (⟨1, "p1", 10, 1⟩ : ProductRow).id)
      = [⟨1, 4, 50⟩] ∧
    ∀ x ∈ query4Rows ex3DB, x.product ≠ ⟨1, "p1", 10, 1⟩ :=
  ⟨by decide, by decide,
   query4_singleton_category_excluded ex3DB ⟨1, "p1", 10, 1⟩ ⟨1, 4, 50⟩
     (by decide) (by decide)⟩

end Fakestore
